import Mathlib

/-!
Verification of the video-factory-automator frame pipeline.

Shallow embedding of the core rendering services:
* `src/types/video.ts` — the `Section` data model;
* `src/services/frameGenerator.ts` — `FrameGeneratorService.renderToCanvas`
  (frame sequencing, progress reporting, cancellation);
* `src/services/framePainter.ts` — `paintFrame`, `createSectionPaintCache`,
  `paintFrameWithCache`, `calculateTextOpacity`, `wrapText`;
* `src/services/videoRenderer.ts` — `VideoRendererService` (mime negotiation,
  `renderVideoFromSections` teardown behaviour).

JavaScript numbers are modelled as rationals (ℚ); strings appearing in the
word-wrap algorithm are modelled as lists of characters so that splitting and
joining are ordinary list operations.
-/

/-- The `SectionType` union from `src/types/video.ts`. -/
inductive SectionType
  | hook | overview | core | myth | summary
deriving DecidableEq, Repr

/-- The `Section` record from `src/types/video.ts`; `duration` is in seconds. -/
structure Section where
  id : String
  type : SectionType
  title : String
  content : String
  duration : ℚ
  order : ℤ
deriving DecidableEq, Repr

/-- One frame painted by `FrameGeneratorService.renderToCanvas`
(`frameGenerator.ts`): the section it belongs to, the animation `progress`
and `timestamp` passed to `paintFrame`, and the value of the `frameCount`
counter just after its increment for this frame. -/
structure FrameRecord where
  sectionId : String
  progress : ℚ
  timestamp : ℚ
  frameCount : ℕ
deriving DecidableEq, Repr

/-- `const sectionFrames = Math.ceil(section.duration * this.options.fps)`
(frameGenerator.ts line 88).  A non-positive product yields zero loop
iterations, hence `Int.toNat`. -/
def sectionFrames (fps : ℕ) (s : Section) : ℕ :=
  (Int.ceil (s.duration * (fps : ℚ))).toNat

/-- The frames painted by the inner loop `for (let i = 0; i < sectionFrames; i++)`
of `renderToCanvas` for one section, given the loop-carried `currentTime` `t0`
and prior `frameCount` `c0`: `progress = i / sectionFrames`,
`timestamp = currentTime + i / fps`, and `frameCount` is incremented once per
frame (frameGenerator.ts lines 90-109). -/
def sectionTrace (fps : ℕ) (s : Section) (t0 : ℚ) (c0 : ℕ) : List FrameRecord :=
  (List.range (sectionFrames fps s)).map fun (i : ℕ) =>
    { sectionId := s.id
      progress := (i : ℚ) / (sectionFrames fps s : ℚ)
      timestamp := t0 + (i : ℚ) / (fps : ℚ)
      frameCount := c0 + i + 1 }

/-- The outer loop `for (const section of sections)` of `renderToCanvas`,
carrying `currentTime` (increased by `section.duration` after each section)
and the running `frameCount`. -/
def renderTraceAux (fps : ℕ) : List Section → ℚ → ℕ → List FrameRecord
  | [], _, _ => []
  | s :: rest, t, c =>
      sectionTrace fps s t c ++
        renderTraceAux fps rest (t + s.duration) (c + sectionFrames fps s)

/-- The full sequence of frames painted by
`FrameGeneratorService.renderToCanvas(sections, …)`, starting from
`currentTime = 0` and `frameCount = 0` (frameGenerator.ts lines 66-120). -/
def renderTrace (fps : ℕ) (sections : List Section) : List FrameRecord :=
  renderTraceAux fps sections 0 0

/-- `const totalFrames = Math.ceil(totalDuration * fps)` where
`totalDuration = sections.reduce((acc, s) => acc + s.duration, 0)`
(frameGenerator.ts lines 63-64).  Note the source multiplies the *summed*
duration before taking one ceiling, unlike the per-section
`Math.ceil(section.duration * fps)` used by the paint loop. -/
def totalFramesCode (fps : ℕ) (sections : List Section) : ℕ :=
  (Int.ceil ((sections.map Section.duration).sum * (fps : ℚ))).toNat

/-- The value `(frameCount / totalFrames) * 100` passed to `onProgress`
(frameGenerator.ts line 112). -/
def frameProgressValue (fps : ℕ) (sections : List Section) (c : ℕ) : ℚ :=
  ((c : ℚ) / (totalFramesCode fps sections : ℚ)) * 100

/-- The progress values delivered to `onProgress` during a `renderToCanvas`
run.  The wall-clock throttle `shouldEmitProgress` (≥120 ms gate,
frameGenerator.ts lines 71-79) is modelled by an arbitrary boolean oracle
consulted at each frame; as in the source, emission is additionally forced
when `frameCount === totalFrames` (line 111). -/
def emittedProgress (fps : ℕ) (sections : List Section)
    (throttle : ℕ → Bool) : List ℚ :=
  ((renderTrace fps sections).filter fun f =>
      throttle f.frameCount || decide (f.frameCount = totalFramesCode fps sections)).map
    fun f => frameProgressValue fps sections f.frameCount

/-- A half-second section, used to exhibit the fractional-duration mismatch
between `Math.ceil(totalDuration * fps)` and `Σ Math.ceil(duration * fps)`. -/
def halfA : Section :=
  { id := "a", type := SectionType.hook, title := "A", content := "",
    duration := 1/2, order := 1 }

/-- A second half-second section. -/
def halfB : Section :=
  { id := "b", type := SectionType.core, title := "B", content := "",
    duration := 1/2, order := 2 }

/-- The one-second demo section of the spec scenario
(1 section, duration = 1 s, fps = 10). -/
def demoSection : Section :=
  { id := "s1", type := SectionType.hook, title := "Intro",
    content := "hello world", duration := 1, order := 1 }

/-- `calculateTextOpacity` (framePainter.ts lines 150-154): fade in below
progress 0.1, fade out above 0.9, fully opaque in between. -/
def calculateTextOpacity (progress : ℚ) : ℚ :=
  if progress < 1/10 then progress * 10
  else if 9/10 < progress then (1 - progress) * 10
  else 1

/-- ε-δ continuity of a rational-valued function at a point, used to state
the spec's continuity requirements on the opacity envelope. -/
def ContinuousAtQ (f : ℚ → ℚ) (a : ℚ) : Prop :=
  ∀ ε : ℚ, 0 < ε → ∃ δ : ℚ, 0 < δ ∧ ∀ q : ℚ, |q - a| < δ → |f q - f a| < ε

/-- `Math.min(lines.length, Math.ceil(lines.length * progress * textRevealMultiplier))`
with `textRevealMultiplier = 2`, from `paintFrameWithCache`
(framePainter.ts lines 128-132). -/
def visibleLines (n : ℕ) (p : ℚ) : ℤ :=
  min (n : ℤ) (Int.ceil ((n : ℚ) * p * 2))

/-- Accumulator-style splitting of a character list at every single space:
the JavaScript `text.split(' ')`.  Consecutive, leading or trailing spaces
yield empty fragments, and the empty text yields `[[]]` (JS: `[""]`). -/
def splitSpacesAux : List Char → List Char → List (List Char)
  | [], acc => [acc.reverse]
  | c :: cs, acc =>
      if c = ' ' then acc.reverse :: splitSpacesAux cs []
      else splitSpacesAux cs (c :: acc)

/-- `text.split(' ')` (framePainter.ts line 157), on texts modelled as
character lists. -/
def splitSpaces (cs : List Char) : List (List Char) :=
  splitSpacesAux cs []

/-- The characters contributed by the second and later fragments when
fragments are joined with single spaces. -/
def tailJoin : List (List Char) → List Char
  | [] => []
  | w :: ws => ' ' :: (w ++ tailJoin ws)

/-- Joining fragments with single spaces (`lines.join(' ')`). -/
def joinSpaces : List (List Char) → List Char
  | [] => []
  | w :: ws => w ++ tailJoin ws

/-- `currentLine + (currentLine ? ' ' : '')`: the separator inserted before
the next word when building `testLine` (framePainter.ts line 162). -/
def sepFor (cur : List Char) : List Char :=
  if cur = [] then [] else [' ']

/-- The word-packing loop of `wrapText` (framePainter.ts lines 161-174),
parameterised by the `ctx.measureText(…).width` function: build
`testLine = currentLine + sep + word`; if it measures wider than `maxWidth`
and `currentLine` is non-empty, push `currentLine` and restart from `word`;
otherwise continue with `testLine`; finally push a non-empty `currentLine`. -/
def wrapWords (measure : List Char → ℚ) (maxWidth : ℚ) :
    List (List Char) → List Char → List (List Char)
  | [], cur => if cur = [] then [] else [cur]
  | w :: ws, cur =>
      if maxWidth < measure (cur ++ sepFor cur ++ w) ∧ cur ≠ [] then
        cur :: wrapWords measure maxWidth ws w
      else
        wrapWords measure maxWidth ws (cur ++ sepFor cur ++ w)

/-- `wrapText(ctx, text, maxWidth)` (framePainter.ts lines 156-175). -/
def wrapText (measure : List Char → ℚ) (maxWidth : ℚ) (text : List Char) :
    List (List Char) :=
  wrapWords measure maxWidth (splitSpaces text) []

/-- A concrete text-measurement function (one width unit per character),
used for concrete instances of the word-wrap claims. -/
def lengthMeasure (w : List Char) : ℚ := (w.length : ℚ)

/-- Observable painter calls during a `renderToCanvas` run. -/
inductive PaintEvent
  | buildCache (sectionId : String)
  | paintWithCache (sectionId : String) (progress : ℚ)
deriving DecidableEq, Repr

/-- The painter calls performed by one `paintFrame(…)` invocation
(framePainter.ts lines 32-44): it first builds the per-section paint cache
via `createSectionPaintCache`, then draws via `paintFrameWithCache`. -/
def paintFrameEvents (sid : String) (progress : ℚ) : List PaintEvent :=
  [PaintEvent.buildCache sid, PaintEvent.paintWithCache sid progress]

/-- All painter calls of a `renderToCanvas` run: one `paintFrame` invocation
per painted frame (frameGenerator.ts lines 100-107); nothing in the streaming
path calls `createSectionPaintCache` or `paintFrameWithCache` directly. -/
def renderEvents (fps : ℕ) (sections : List Section) : List PaintEvent :=
  (renderTrace fps sections).flatMap fun f => paintFrameEvents f.sectionId f.progress

/-- How many times the per-section paint cache is built for the section with
id `sid` during a run. -/
def cacheBuildCount (fps : ℕ) (sections : List Section) (sid : String) : ℕ :=
  (renderEvents fps sections).countP fun e =>
    match e with
    | PaintEvent.buildCache i => decide (i = sid)
    | _ => false

/-- A JavaScript `Error`, carrying its `name` and `message`. -/
structure JsError where
  name : String
  message : String
deriving DecidableEq, Repr

/-- The cancellation error thrown at a frame boundary when the abort signal
is observed (frameGenerator.ts lines 91-95): its `name` is set to
`'AbortError'` so callers can distinguish cancellation. -/
def abortError : JsError :=
  { name := "AbortError", message := "Generation cancelled" }

/-- The cancellation-aware frame loop of `renderToCanvas`
(frameGenerator.ts lines 90-117): walks the frame schedule in order, polling
the abort signal (modelled as a function of the number of frames already
painted) before painting each frame; if the signal is set it throws
`abortError` without painting, otherwise it paints and continues.  Returns
the painted prefix together with the error, if any. -/
def runFrames (signal : ℕ → Bool) :
    List FrameRecord → ℕ → List FrameRecord × Option JsError
  | [], _ => ([], none)
  | f :: rest, c =>
      if signal c then ([], some abortError)
      else
        let r := runFrames signal rest (c + 1)
        (f :: r.1, r.2)

/-- Painted frames and outcome of `renderToCanvas(sections, …, signal)`. -/
def renderToCanvasRun (fps : ℕ) (sections : List Section)
    (signal : ℕ → Bool) : List FrameRecord × Option JsError :=
  runFrames signal (renderTrace fps sections) 0

/-- `'video/webm;codecs=vp9'` — the preferred high-efficiency codec. -/
def vp9Mime : String := "video/webm;codecs=vp9"

/-- `'video/webm;codecs=vp8'` — the widely-supported fallback codec. -/
def vp8Mime : String := "video/webm;codecs=vp8"

/-- `'video/webm'` — the generic container with no codec constraint. -/
def webmMime : String := "video/webm"

/-- The ordered codec preference list of `VideoRendererService`
(videoRenderer.ts lines 20-33). -/
def mimeCandidates : List String := [vp9Mime, vp8Mime, webmMime]

/-- The constructor's mime negotiation (videoRenderer.ts lines 18-34): start
from the requested mime type (default VP9), replace it by VP8 if unsupported,
then replace that by plain WebM if still unsupported.  `isSupported` models
`MediaRecorder.isTypeSupported`. -/
def negotiateMime (isSupported : String → Bool) (requested : Option String) :
    String :=
  let m0 := requested.getD vp9Mime
  let m1 := if isSupported m0 then m0 else vp8Mime
  if isSupported m1 then m1 else webmMime

/-- An encoded chunk (opaque bytes) emitted by the platform recorder. -/
structure Chunk where
  data : List ℕ
deriving DecidableEq, Repr

/-- The final artifact: the ordered chunk list plus the mime tag passed to
`new Blob(chunks, { type: this.options.mimeType })`
(videoRenderer.ts lines 164-167). -/
structure Artifact where
  chunks : List Chunk
  mimeType : String
deriving DecidableEq, Repr

/-- A teardown action observed in `renderVideoFromSections`'s completion and
failure paths (videoRenderer.ts lines 193-205).  `recorderStop raised`
records a `mediaRecorder.stop()` attempt and whether it raised — in the
failure path the surrounding `try … catch` swallows such an exception. -/
inductive TeardownAction
  | recorderStop (raised : Bool)
  | trackStop
deriving DecidableEq, Repr

/-- `VideoRendererService.renderVideoFromSections` (videoRenderer.ts lines
112-207), with the platform abstracted: `isSupported` models
`MediaRecorder.isTypeSupported`, `encoder` models the recorder's emitted
chunk stream as a function of the frames actually painted onto the captured
canvas, and `stopThrows` says whether the secondary `mediaRecorder.stop()`
in the failure path raises.  On sequencer success: stop recorder, stop all
stream tracks, resolve with a blob tagged with the negotiated mime type.  On
sequencer failure or cancellation: attempt `mediaRecorder.stop()` (swallowing
its exception), stop all stream tracks, and reject with the original error.
Returns (emitted chunks, teardown actions, outcome). -/
def renderVideoFromSections (isSupported : String → Bool)
    (encoder : List FrameRecord → List Chunk) (stopThrows : Bool)
    (fps : ℕ) (sections : List Section) (signal : ℕ → Bool) :
    List Chunk × List TeardownAction × Except JsError Artifact :=
  let mime := negotiateMime isSupported none
  let run := renderToCanvasRun fps sections signal
  let emitted := encoder run.1
  match run.2 with
  | none =>
      (emitted, [TeardownAction.recorderStop false, TeardownAction.trackStop],
        Except.ok { chunks := emitted, mimeType := mime })
  | some e =>
      (emitted, [TeardownAction.recorderStop stopThrows, TeardownAction.trackStop],
        Except.error e)

lemma sectionTrace_length (fps : ℕ) (s : Section) (t0 : ℚ) (c0 : ℕ) :
    (sectionTrace fps s t0 c0).length = sectionFrames fps s := by
  simp [sectionTrace]

lemma sectionTrace_map_frameCount (fps : ℕ) (s : Section) (t0 : ℚ) (c0 : ℕ) :
    (sectionTrace fps s t0 c0).map FrameRecord.frameCount
      = List.range' (c0 + 1) (sectionFrames fps s) := by
  rw [sectionTrace, List.map_map, List.range'_eq_map_range]
  apply List.map_congr_left
  intro a _
  simp only [Function.comp_apply]
  omega

lemma renderTraceAux_length (fps : ℕ) :
    ∀ (ss : List Section) (t : ℚ) (c : ℕ),
      (renderTraceAux fps ss t c).length = (ss.map (sectionFrames fps)).sum
  | [], _, _ => rfl
  | s :: rest, t, c => by
      simp [renderTraceAux, sectionTrace_length,
        renderTraceAux_length fps rest]

lemma renderTraceAux_map_frameCount (fps : ℕ) :
    ∀ (ss : List Section) (t : ℚ) (c : ℕ),
      (renderTraceAux fps ss t c).map FrameRecord.frameCount
        = List.range' (c + 1) ((ss.map (sectionFrames fps)).sum)
  | [], _, _ => rfl
  | s :: rest, t, c => by
      rw [renderTraceAux, List.map_append, sectionTrace_map_frameCount,
        renderTraceAux_map_frameCount fps rest]
      have h : c + sectionFrames fps s + 1 = (c + 1) + sectionFrames fps s := by
        omega
      rw [h, List.range'_append_1]
      simp [Nat.add_comm]

/-- **C1.** For every list of sections with per-section durations dᵢ and frame
rate F, a streaming render (`renderToCanvas`) paints exactly Σᵢ ⌈dᵢ·F⌉ frames
in total, and the `frameCount` values attached to successive frames are
`1, 2, …, N` — increasing by one at every frame, with no gap or repeat across
section boundaries. -/
theorem C1_total_frames_and_continuity (fps : ℕ) (sections : List Section) :
    (renderTrace fps sections).length = (sections.map (sectionFrames fps)).sum ∧
    (renderTrace fps sections).map FrameRecord.frameCount
      = List.range' 1 ((sections.map (sectionFrames fps)).sum) := by
  constructor
  · exact renderTraceAux_length fps sections 0 0
  · exact renderTraceAux_map_frameCount fps sections 0 0

lemma ceil_toNat_eval {a : ℚ} {k : ℕ} (hk1 : (k : ℚ) - 1 < a) (hk2 : a ≤ (k : ℚ)) :
    (Int.ceil a).toNat = k := by
  have h : Int.ceil a = (k : ℤ) := by
    rw [Int.ceil_eq_iff]
    constructor
    · push_cast
      exact hk1
    · push_cast
      exact hk2
  rw [h, Int.toNat_natCast]

lemma sectionFrames_demo : sectionFrames 10 demoSection = 10 := by
  unfold sectionFrames
  apply ceil_toNat_eval <;> norm_num [demoSection]

lemma sectionFrames_halfA : sectionFrames 3 halfA = 2 := by
  unfold sectionFrames
  apply ceil_toNat_eval <;> norm_num [halfA]

lemma sectionFrames_halfB : sectionFrames 3 halfB = 2 := by
  unfold sectionFrames
  apply ceil_toNat_eval <;> norm_num [halfB]

lemma totalFramesCode_halves : totalFramesCode 3 [halfA, halfB] = 3 := by
  unfold totalFramesCode
  apply ceil_toNat_eval <;> norm_num [halfA, halfB]

lemma mem_sectionTrace {fps : ℕ} {s : Section} {t0 : ℚ} {c0 : ℕ} {f : FrameRecord}
    (hf : f ∈ sectionTrace fps s t0 c0) :
    ∃ i : ℕ, i < sectionFrames fps s ∧
      f = { sectionId := s.id
            progress := (i : ℚ) / (sectionFrames fps s : ℚ)
            timestamp := t0 + (i : ℚ) / (fps : ℚ)
            frameCount := c0 + i + 1 } := by
  simp only [sectionTrace, List.mem_map, List.mem_range] at hf
  obtain ⟨i, hi, rfl⟩ := hf
  exact ⟨i, hi, rfl⟩

lemma mem_renderTraceAux {fps : ℕ} {f : FrameRecord} :
    ∀ {ss : List Section} {t : ℚ} {c : ℕ}, f ∈ renderTraceAux fps ss t c →
      ∃ s ∈ ss, ∃ t0 : ℚ, ∃ c0 : ℕ, f ∈ sectionTrace fps s t0 c0
  | [], _, _, h => by simp [renderTraceAux] at h
  | s :: rest, t, c, h => by
      rw [renderTraceAux, List.mem_append] at h
      rcases h with h | h
      · exact ⟨s, List.mem_cons_self s rest, t, c, h⟩
      · obtain ⟨s', hs', t0, c0, hmem⟩ := mem_renderTraceAux h
        exact ⟨s', List.mem_cons_of_mem _ hs', t0, c0, hmem⟩

lemma sectionTrace_progress_lt_one {fps : ℕ} {s : Section} {t0 : ℚ} {c0 : ℕ}
    {f : FrameRecord} (hf : f ∈ sectionTrace fps s t0 c0) : f.progress < 1 := by
  obtain ⟨i, hi, rfl⟩ := mem_sectionTrace hf
  have hk : (0 : ℚ) < (sectionFrames fps s : ℚ) := by
    exact_mod_cast Nat.pos_of_ne_zero (by omega)
  simp only
  rw [div_lt_one hk]
  exact_mod_cast hi

lemma renderTrace_pairwise_frameCount (fps : ℕ) (sections : List Section) :
    (renderTrace fps sections).Pairwise fun a b => a.frameCount < b.frameCount := by
  have hp : ((renderTrace fps sections).map FrameRecord.frameCount).Pairwise (· < ·) := by
    rw [renderTrace, renderTraceAux_map_frameCount fps sections 0 0]
    exact List.pairwise_lt_range' 1 _ 1 (by simp)
  rw [List.pairwise_map] at hp
  exact hp

lemma renderTrace_frameCount_le (fps : ℕ) (sections : List Section)
    {f : FrameRecord} (hf : f ∈ renderTrace fps sections) :
    f.frameCount ≤ (sections.map (sectionFrames fps)).sum := by
  have hmem : f.frameCount ∈ (renderTrace fps sections).map FrameRecord.frameCount :=
    List.mem_map_of_mem _ hf
  rw [renderTrace, renderTraceAux_map_frameCount fps sections 0 0] at hmem
  rw [List.mem_range'_1] at hmem
  omega

lemma frameProgressValue_mono (fps : ℕ) (sections : List Section) {a b : ℕ}
    (hab : a ≤ b) :
    frameProgressValue fps sections a ≤ frameProgressValue fps sections b := by
  unfold frameProgressValue
  have hT : (0 : ℚ) ≤ (totalFramesCode fps sections : ℚ) := by positivity
  rcases eq_or_lt_of_le hT with h0 | hpos
  · rw [← h0]
    simp
  · have hq : (a : ℚ) ≤ (b : ℚ) := by exact_mod_cast hab
    gcongr

lemma frameProgressValue_le_100 (fps : ℕ) (sections : List Section) {c : ℕ}
    (hc : c ≤ totalFramesCode fps sections) :
    frameProgressValue fps sections c ≤ 100 := by
  unfold frameProgressValue
  rcases Nat.eq_zero_or_pos (totalFramesCode fps sections) with h0 | hpos
  · have : c = 0 := by omega
    subst this
    simp
  · have hT : (0 : ℚ) < (totalFramesCode fps sections : ℚ) := by exact_mod_cast hpos
    have h1 : (c : ℚ) / (totalFramesCode fps sections : ℚ) ≤ 1 :=
      (div_le_one hT).2 (by exact_mod_cast hc)
    calc (c : ℚ) / (totalFramesCode fps sections : ℚ) * 100
        ≤ 1 * 100 := by
          exact mul_le_mul_of_nonneg_right h1 (by norm_num)
      _ = 100 := one_mul _

lemma sectionFrames_of_int {fps : ℕ} {s : Section} {k : ℕ}
    (h : s.duration * (fps : ℚ) = (k : ℚ)) : sectionFrames fps s = k := by
  unfold sectionFrames
  rw [h, Int.ceil_natCast, Int.toNat_natCast]

lemma duration_sum_of_int (fps : ℕ) :
    ∀ ss : List Section, (∀ s ∈ ss, ∃ k : ℕ, s.duration * (fps : ℚ) = (k : ℚ)) →
      (ss.map Section.duration).sum * (fps : ℚ)
        = (((ss.map (sectionFrames fps)).sum : ℕ) : ℚ)
  | [], _ => by simp
  | s :: rest, h => by
      obtain ⟨k, hk⟩ := h s (List.mem_cons_self s rest)
      have hrest := duration_sum_of_int fps rest fun s' hs' =>
        h s' (List.mem_cons_of_mem _ hs')
      simp only [List.map_cons, List.sum_cons]
      rw [add_mul, hk, hrest, sectionFrames_of_int hk]
      push_cast
      ring

lemma totalFramesCode_of_int (fps : ℕ) (ss : List Section)
    (h : ∀ s ∈ ss, ∃ k : ℕ, s.duration * (fps : ℚ) = (k : ℚ)) :
    totalFramesCode fps ss = (ss.map (sectionFrames fps)).sum := by
  unfold totalFramesCode
  rw [duration_sum_of_int fps ss h, Int.ceil_natCast, Int.toNat_natCast]

/-- **C3.** For frame i (0-based) of a section with duration D at rate F the
sequencer computes `sectionFrameCount = ⌈D·F⌉`, `progress = i / sectionFrameCount`,
`timestamp = cumulativeTime + i/F`; every frame of every run has progress
strictly below 1; and the concrete scenario — one section of duration 1 s at
fps 10 — yields exactly 10 frames with progress sequence 0.0, 0.1, …, 0.9. -/
theorem C3_progress_timestamp_formulas :
    (∀ (fps : ℕ) (s : Section) (t0 : ℚ) (c0 i : ℕ), i < sectionFrames fps s →
      (sectionTrace fps s t0 c0)[i]? =
        some { sectionId := s.id
               progress := (i : ℚ) / (sectionFrames fps s : ℚ)
               timestamp := t0 + (i : ℚ) / (fps : ℚ)
               frameCount := c0 + i + 1 }) ∧
    (∀ (fps : ℕ) (sections : List Section) (f : FrameRecord),
      f ∈ renderTrace fps sections → f.progress < 1) ∧
    (renderTrace 10 [demoSection]).length = 10 ∧
    (renderTrace 10 [demoSection]).map FrameRecord.progress
      = (List.range 10).map (fun i : ℕ => (i : ℚ) / 10) := by
  refine ⟨?_, ?_, ?_, ?_⟩
  · intro fps s t0 c0 i hi
    simp [sectionTrace, List.getElem?_map, List.getElem?_range, hi]
  · intro fps sections f hf
    obtain ⟨s, _, t0, c0, hmem⟩ := mem_renderTraceAux hf
    exact sectionTrace_progress_lt_one hmem
  · simp [renderTrace, renderTraceAux, sectionTrace_length, sectionFrames_demo]
  · simp [renderTrace, renderTraceAux, sectionTrace, sectionFrames_demo,
      List.map_map]

/-- Witness for C3: instantiating the per-frame formulas at frame 3 of the
demo scenario. -/
theorem C3_progress_timestamp_formulas_witness :
    3 < sectionFrames 10 demoSection ∧
    (sectionTrace 10 demoSection 0 0)[3]? =
      some { sectionId := demoSection.id
             progress := (3 : ℚ) / (sectionFrames 10 demoSection : ℚ)
             timestamp := 0 + (3 : ℚ) / (10 : ℚ)
             frameCount := 0 + 3 + 1 } :=
  ⟨by rw [sectionFrames_demo]; norm_num,
    C3_progress_timestamp_formulas.1 10 demoSection 0 0 3
      (by rw [sectionFrames_demo]; norm_num)⟩

/-- **C2 counterexample.** With two half-second sections at fps = 3 the run
paints ⌈3/2⌉ + ⌈3/2⌉ = 4 frames while the code's `totalFrames`
= ⌈(1/2+1/2)·3⌉ = 3, so a delivered progress value (400/3) exceeds 100:
the claim that `(frameCount / totalFrames) * 100` never exceeds 100 is false. -/
theorem C2_progress_counterexample :
    ∃ v ∈ emittedProgress 3 [halfA, halfB] (fun _ => true), 100 < v := by
  have e : emittedProgress 3 [halfA, halfB] (fun _ => true)
      = [frameProgressValue 3 [halfA, halfB] 1,
         frameProgressValue 3 [halfA, halfB] 2,
         frameProgressValue 3 [halfA, halfB] 3,
         frameProgressValue 3 [halfA, halfB] 4] := by
    simp [emittedProgress, renderTrace, renderTraceAux, sectionTrace,
      sectionFrames_halfA, sectionFrames_halfB, List.range_succ]
  rw [e]
  refine ⟨frameProgressValue 3 [halfA, halfB] 4, by simp, ?_⟩
  unfold frameProgressValue
  rw [totalFramesCode_halves]
  norm_num

/-- **C2 (amended).** Delivered progress values are monotonically
non-decreasing within the frames step and are always non-negative; whenever
every section's `duration × fps` is an integer (so that
`Σ ⌈dᵢ·F⌉ = ⌈Σ dᵢ·F⌉`), every delivered value also stays ≤ 100.  (For
fractional durations the painted-frame count can exceed the code's
`totalFrames`, so the upper bound of 100 does not hold in general.) -/
theorem C2_progress_bounds_amended (fps : ℕ) (sections : List Section)
    (throttle : ℕ → Bool) :
    List.Pairwise (· ≤ ·) (emittedProgress fps sections throttle) ∧
    (∀ v ∈ emittedProgress fps sections throttle, 0 ≤ v) ∧
    ((∀ s ∈ sections, ∃ k : ℕ, s.duration * (fps : ℚ) = (k : ℚ)) →
      ∀ v ∈ emittedProgress fps sections throttle, v ≤ 100) := by
  refine ⟨?_, ?_, ?_⟩
  · unfold emittedProgress
    rw [List.pairwise_map]
    have hp := (renderTrace_pairwise_frameCount fps sections).imp
      fun {a b} h => frameProgressValue_mono fps sections (Nat.le_of_lt h)
    exact hp.filter _
  · intro v hv
    unfold emittedProgress at hv
    simp only [List.mem_map] at hv
    obtain ⟨f, _, rfl⟩ := hv
    unfold frameProgressValue
    positivity
  · intro hint v hv
    unfold emittedProgress at hv
    simp only [List.mem_map, List.mem_filter] at hv
    obtain ⟨f, ⟨hf, _⟩, rfl⟩ := hv
    apply frameProgressValue_le_100
    rw [totalFramesCode_of_int fps sections hint]
    exact renderTrace_frameCount_le fps sections hf

/-- Witness for the amended C2: the integrality hypothesis holds for the demo
scenario and the ≤ 100 bound follows. -/
theorem C2_progress_bounds_amended_witness :
    (∀ s ∈ [demoSection], ∃ k : ℕ, s.duration * ((10 : ℕ) : ℚ) = (k : ℚ)) ∧
    (∀ v ∈ emittedProgress 10 [demoSection] (fun _ => true), v ≤ 100) := by
  have hint : ∀ s ∈ [demoSection], ∃ k : ℕ, s.duration * ((10 : ℕ) : ℚ) = (k : ℚ) := by
    intro s hs
    rw [List.mem_singleton] at hs
    subst hs
    exact ⟨10, by norm_num [demoSection]⟩
  exact ⟨hint, (C2_progress_bounds_amended 10 [demoSection] (fun _ => true)).2.2 hint⟩

lemma opacity_at_low_edge : calculateTextOpacity (1/10) = 1 := by
  norm_num [calculateTextOpacity]

lemma opacity_at_high_edge : calculateTextOpacity (9/10) = 1 := by
  norm_num [calculateTextOpacity]

lemma opacity_cont_low : ContinuousAtQ calculateTextOpacity (1/10) := by
  intro ε hε
  refine ⟨min (ε/10) (1/10), lt_min (by positivity) (by norm_num), ?_⟩
  intro q hq
  rw [opacity_at_low_edge]
  have hq1 : |q - 1/10| < ε/10 := lt_of_lt_of_le hq (min_le_left _ _)
  have hq2 : |q - 1/10| < 1/10 := lt_of_lt_of_le hq (min_le_right _ _)
  have habs1 := (abs_lt.mp hq1).1
  have habs1' := (abs_lt.mp hq1).2
  have habs2 := (abs_lt.mp hq2).2
  by_cases hcase : q < 1/10
  · have hf : calculateTextOpacity q = q * 10 := by
      simp only [calculateTextOpacity]
      rw [if_pos hcase]
    rw [hf]
    have h1 : q * 10 - 1 = 10 * (q - 1/10) := by ring
    rw [h1, abs_mul, abs_of_pos (by norm_num : (0:ℚ) < 10)]
    have := abs_lt.mpr ⟨habs1, habs1'⟩
    linarith [abs_lt.mp this]
  · have hf : calculateTextOpacity q = 1 := by
      simp only [calculateTextOpacity]
      rw [if_neg hcase, if_neg (by linarith : ¬ (9/10 : ℚ) < q)]
    rw [hf]
    simpa using hε

lemma opacity_cont_high : ContinuousAtQ calculateTextOpacity (9/10) := by
  intro ε hε
  refine ⟨min (ε/10) (1/10), lt_min (by positivity) (by norm_num), ?_⟩
  intro q hq
  rw [opacity_at_high_edge]
  have hq1 : |q - 9/10| < ε/10 := lt_of_lt_of_le hq (min_le_left _ _)
  have hq2 : |q - 9/10| < 1/10 := lt_of_lt_of_le hq (min_le_right _ _)
  have habs1 := (abs_lt.mp hq1).1
  have habs1' := (abs_lt.mp hq1).2
  have habs2 := (abs_lt.mp hq2).1
  by_cases hcase : 9/10 < q
  · have hf : calculateTextOpacity q = (1 - q) * 10 := by
      simp only [calculateTextOpacity]
      rw [if_neg (by linarith : ¬ q < 1/10), if_pos hcase]
    rw [hf]
    have h1 : (1 - q) * 10 - 1 = -(10 * (q - 9/10)) := by ring
    rw [h1, abs_neg, abs_mul, abs_of_pos (by norm_num : (0:ℚ) < 10)]
    linarith
  · have hf : calculateTextOpacity q = 1 := by
      simp only [calculateTextOpacity]
      rw [if_neg (by linarith : ¬ q < 1/10), if_neg hcase]
    rw [hf]
    simpa using hε

/-- **C8.** The opacity envelope is (ε-δ) continuous at p = 0.1 and p = 0.9,
takes the values 0, 1, 0 at p = 0, 0.5, 1, ramps 0→1 linearly on [0, 0.1],
holds 1 on (0.1, 0.9), and ramps 1→0 linearly on [0.9, 1]. -/
theorem C8_opacity_envelope :
    ContinuousAtQ calculateTextOpacity (1/10) ∧
    ContinuousAtQ calculateTextOpacity (9/10) ∧
    calculateTextOpacity 0 = 0 ∧
    calculateTextOpacity (1/2) = 1 ∧
    calculateTextOpacity 1 = 0 ∧
    (∀ p : ℚ, 0 ≤ p → p ≤ 1/10 → calculateTextOpacity p = 10 * p) ∧
    (∀ p : ℚ, 1/10 < p → p < 9/10 → calculateTextOpacity p = 1) ∧
    (∀ p : ℚ, 9/10 ≤ p → p ≤ 1 → calculateTextOpacity p = 10 * (1 - p)) := by
  refine ⟨opacity_cont_low, opacity_cont_high, ?_, ?_, ?_, ?_, ?_, ?_⟩
  · norm_num [calculateTextOpacity]
  · norm_num [calculateTextOpacity]
  · norm_num [calculateTextOpacity]
  · intro p hp0 hp1
    by_cases hcase : p < 1/10
    · simp only [calculateTextOpacity]
      rw [if_pos hcase]
      ring
    · have hp : p = 1/10 := le_antisymm hp1 (not_lt.mp hcase)
      subst hp
      rw [opacity_at_low_edge]
      norm_num
  · intro p hp1 hp2
    simp only [calculateTextOpacity]
    rw [if_neg (by linarith : ¬ p < 1/10), if_neg (by linarith : ¬ (9/10 : ℚ) < p)]
  · intro p hp1 hp2
    by_cases hcase : 9/10 < p
    · simp only [calculateTextOpacity]
      rw [if_neg (by linarith : ¬ p < 1/10), if_pos hcase]
      ring
    · have hp : p = 9/10 := le_antisymm (not_lt.mp hcase) hp1
      subst hp
      rw [opacity_at_high_edge]
      norm_num

/-- Witness for C8: continuity at 0.1 instantiated at ε = 1, and the hold-1
segment instantiated at p = 1/5. -/
theorem C8_opacity_envelope_witness :
    (0 : ℚ) < 1 ∧
    (∃ δ : ℚ, 0 < δ ∧ ∀ q : ℚ, |q - 1/10| < δ →
      |calculateTextOpacity q - calculateTextOpacity (1/10)| < 1) ∧
    ((1 : ℚ)/10 < 1/5 ∧ (1 : ℚ)/5 < 9/10 ∧ calculateTextOpacity (1/5) = 1) :=
  ⟨by norm_num, C8_opacity_envelope.1 1 (by norm_num),
    by norm_num, by norm_num,
    C8_opacity_envelope.2.2.2.2.2.2.1 (1/5) (by norm_num) (by norm_num)⟩

/-- **C9.** `VisibleLines(p, n) = min(n, ⌈n·p·2⌉)` is non-decreasing in p for
every fixed n, equals n at p = 1, and already equals n for every p ≥ 1/2. -/
theorem C9_visibleLines_saturation :
    (∀ (n : ℕ) (p q : ℚ), p ≤ q → visibleLines n p ≤ visibleLines n q) ∧
    (∀ n : ℕ, visibleLines n 1 = n) ∧
    (∀ (n : ℕ) (p : ℚ), 1/2 ≤ p → visibleLines n p = n) := by
  have h3 : ∀ (n : ℕ) (p : ℚ), 1/2 ≤ p → visibleLines n p = n := by
    intro n p hp
    unfold visibleLines
    have hn : (0 : ℚ) ≤ (n : ℚ) := Nat.cast_nonneg n
    have h : (n : ℚ) ≤ (n : ℚ) * p * 2 := by nlinarith
    have h2 : (n : ℤ) ≤ Int.ceil ((n : ℚ) * p * 2) := by
      calc (n : ℤ) = Int.ceil ((n : ℕ) : ℚ) := (Int.ceil_natCast n).symm
        _ ≤ Int.ceil ((n : ℚ) * p * 2) := Int.ceil_mono h
    exact min_eq_left h2
  refine ⟨?_, fun n => h3 n 1 (by norm_num), h3⟩
  intro n p q hpq
  unfold visibleLines
  apply min_le_min le_rfl
  apply Int.ceil_mono
  have hn : (0 : ℚ) ≤ (n : ℚ) := Nat.cast_nonneg n
  nlinarith

/-- Witness for C9: monotonicity between p = 1/4 and p = 1/2, and saturation
at p = 1/2, for n = 4 lines. -/
theorem C9_visibleLines_saturation_witness :
    ((1 : ℚ)/4 ≤ 1/2 ∧ visibleLines 4 (1/4) ≤ visibleLines 4 (1/2)) ∧
    ((1 : ℚ)/2 ≤ 1/2 ∧ visibleLines 4 (1/2) = 4) :=
  ⟨⟨by norm_num, C9_visibleLines_saturation.1 4 (1/4) (1/2) (by norm_num)⟩,
    ⟨by norm_num, C9_visibleLines_saturation.2.2 4 (1/2) (by norm_num)⟩⟩

lemma joinSpaces_cons_of_ne_nil {a : List Char} {l : List (List Char)}
    (h : l ≠ []) : joinSpaces (a :: l) = a ++ ' ' :: joinSpaces l := by
  obtain ⟨b, bs, rfl⟩ := List.exists_cons_of_ne_nil h
  simp [joinSpaces, tailJoin]

lemma splitSpacesAux_ne_nil :
    ∀ cs acc : List Char, splitSpacesAux cs acc ≠ []
  | [], acc => by simp [splitSpacesAux]
  | c :: cs, acc => by
      simp only [splitSpacesAux]
      by_cases h : c = ' '
      · rw [if_pos h]
        simp
      · rw [if_neg h]
        exact splitSpacesAux_ne_nil cs (c :: acc)

lemma joinSpaces_splitSpacesAux :
    ∀ cs acc : List Char, joinSpaces (splitSpacesAux cs acc) = acc.reverse ++ cs
  | [], acc => by simp [splitSpacesAux, joinSpaces, tailJoin]
  | c :: cs, acc => by
      simp only [splitSpacesAux]
      by_cases h : c = ' '
      · rw [if_pos h, joinSpaces_cons_of_ne_nil (splitSpacesAux_ne_nil cs []),
          joinSpaces_splitSpacesAux cs []]
        simp [h]
      · rw [if_neg h, joinSpaces_splitSpacesAux cs (c :: acc)]
        simp

lemma splitSpacesAux_no_space :
    ∀ cs acc : List Char, ' ' ∉ acc → ∀ w ∈ splitSpacesAux cs acc, ' ' ∉ w
  | [], acc, hacc, w, hw => by
      simp only [splitSpacesAux, List.mem_singleton] at hw
      subst hw
      simpa using hacc
  | c :: cs, acc, hacc, w, hw => by
      simp only [splitSpacesAux] at hw
      by_cases h : c = ' '
      · rw [if_pos h] at hw
        rcases List.mem_cons.mp hw with rfl | hw'
        · simpa using hacc
        · exact splitSpacesAux_no_space cs [] (by simp) w hw'
      · rw [if_neg h] at hw
        refine splitSpacesAux_no_space cs (c :: acc) ?_ w hw
        intro hmem
        rcases List.mem_cons.mp hmem with h1 | h2
        · exact h h1.symm
        · exact hacc h2

lemma wrapWords_ne_nil (m : List Char → ℚ) (mw : ℚ) :
    ∀ (ws : List (List Char)) (cur : List Char), cur ≠ [] →
      wrapWords m mw ws cur ≠ []
  | [], cur, h => by simp [wrapWords, h]
  | w :: ws, cur, h => by
      simp only [wrapWords]
      by_cases hc : mw < m (cur ++ sepFor cur ++ w) ∧ cur ≠ []
      · rw [if_pos hc]
        simp
      · rw [if_neg hc]
        refine wrapWords_ne_nil m mw ws _ ?_
        simp [h]

lemma joinSpaces_wrapWords (m : List Char → ℚ) (mw : ℚ) :
    ∀ (ws : List (List Char)) (cur : List Char), cur ≠ [] →
      (∀ w ∈ ws, w ≠ []) →
      joinSpaces (wrapWords m mw ws cur) = cur ++ tailJoin ws
  | [], cur, h, _ => by
      simp [wrapWords, h, joinSpaces, tailJoin]
  | w :: ws, cur, h, hws => by
      have hw : w ≠ [] := hws w (List.mem_cons_self w ws)
      have hws' : ∀ x ∈ ws, x ≠ [] := fun x hx => hws x (List.mem_cons_of_mem _ hx)
      simp only [wrapWords]
      by_cases hc : mw < m (cur ++ sepFor cur ++ w) ∧ cur ≠ []
      · rw [if_pos hc,
          joinSpaces_cons_of_ne_nil (wrapWords_ne_nil m mw ws w hw),
          joinSpaces_wrapWords m mw ws w hw hws']
        simp [tailJoin]
      · rw [if_neg hc,
          joinSpaces_wrapWords m mw ws _ (by simp [h]) hws']
        simp [sepFor, h, tailJoin]

lemma wrapWords_width (m : List Char → ℚ) (mw : ℚ) :
    ∀ (ws : List (List Char)) (cur : List Char),
      (∀ w ∈ ws, ' ' ∉ w) → (' ' ∈ cur → m cur ≤ mw) →
      ∀ l ∈ wrapWords m mw ws cur, ' ' ∈ l → m l ≤ mw
  | [], cur, _, hcur, l, hl => by
      by_cases h : cur = []
      · simp [wrapWords, h] at hl
      · simp only [wrapWords, if_neg h, List.mem_singleton] at hl
        subst hl
        exact hcur
  | w :: ws, cur, hws, hcur, l, hl => by
      have hw : ' ' ∉ w := hws w (List.mem_cons_self w ws)
      have hws' : ∀ x ∈ ws, ' ' ∉ x := fun x hx => hws x (List.mem_cons_of_mem _ hx)
      simp only [wrapWords] at hl
      by_cases hc : mw < m (cur ++ sepFor cur ++ w) ∧ cur ≠ []
      · rw [if_pos hc] at hl
        rcases List.mem_cons.mp hl with rfl | hl'
        · exact hcur
        · exact wrapWords_width m mw ws w hws' (fun hsp => absurd hsp hw) l hl'
      · rw [if_neg hc] at hl
        refine wrapWords_width m mw ws _ hws' ?_ l hl
        intro hsp
        by_cases hcur0 : cur = []
        · subst hcur0
          simp [sepFor] at hsp
          exact absurd hsp hw
        · exact not_lt.mp fun hlt => hc ⟨hlt, hcur0⟩

lemma wrapWords_lines_ne_nil (m : List Char → ℚ) (mw : ℚ) :
    ∀ (ws : List (List Char)) (cur : List Char),
      ∀ l ∈ wrapWords m mw ws cur, l ≠ []
  | [], cur, l, hl => by
      by_cases h : cur = []
      · simp [wrapWords, h] at hl
      · simp only [wrapWords, if_neg h, List.mem_singleton] at hl
        subst hl
        exact h
  | w :: ws, cur, l, hl => by
      simp only [wrapWords] at hl
      by_cases hc : mw < m (cur ++ sepFor cur ++ w) ∧ cur ≠ []
      · rw [if_pos hc] at hl
        rcases List.mem_cons.mp hl with rfl | hl'
        · exact hc.2
        · exact wrapWords_lines_ne_nil m mw ws w l hl'
      · rw [if_neg hc] at hl
        exact wrapWords_lines_ne_nil m mw ws _ l hl

/-- **C6 counterexample.** For the content `"a "` (trailing space) and the
per-character measurement function with max width 1, `wrapText` returns the
single line `"a"`, so joining the wrapped lines with single spaces does NOT
reconstruct the original content: the empty word produced by the trailing
space is dropped at a line break. -/
theorem C6_roundtrip_counterexample :
    joinSpaces (wrapText lengthMeasure 1 (['a', ' '])) ≠ (['a', ' ']) := by
  have h : wrapText lengthMeasure 1 (['a', ' ']) = [['a']] := by decide
  rw [h]
  decide

/-- **C6 (amended).** If every word of `text.split(' ')` is non-empty (no
leading, trailing or consecutive spaces), joining the lines returned by
`wrapText` with single spaces reconstructs the original content exactly; and
unconditionally, every returned line containing more than one word (i.e.
containing a space — words themselves never contain spaces) measures at most
the maximum width under the measurement function used. -/
theorem C6_wrap_roundtrip_amended (measure : List Char → ℚ) (maxWidth : ℚ)
    (text : List Char) :
    ((∀ w ∈ splitSpaces text, w ≠ []) →
      joinSpaces (wrapText measure maxWidth text) = text) ∧
    (∀ l ∈ wrapText measure maxWidth text, ' ' ∈ l → measure l ≤ maxWidth) := by
  constructor
  · intro hwords
    obtain ⟨w0, ws, hsplit⟩ :=
      List.exists_cons_of_ne_nil (splitSpacesAux_ne_nil text [])
    have hsplit' : splitSpaces text = w0 :: ws := hsplit
    have hw0 : w0 ≠ [] := hwords w0 (hsplit' ▸ List.mem_cons_self w0 ws)
    have hws : ∀ x ∈ ws, x ≠ [] := fun x hx =>
      hwords x (hsplit' ▸ List.mem_cons_of_mem _ hx)
    have hstep : wrapWords measure maxWidth (w0 :: ws) [] =
        wrapWords measure maxWidth ws w0 := by
      simp [wrapWords, sepFor]
    rw [wrapText, hsplit', hstep,
      joinSpaces_wrapWords measure maxWidth ws w0 hw0 hws]
    have hj : joinSpaces (splitSpaces text) = text := by
      rw [splitSpaces, joinSpaces_splitSpacesAux]
      simp
    rw [hsplit'] at hj
    simpa [joinSpaces] using hj
  · intro l hl
    rw [wrapText] at hl
    refine wrapWords_width measure maxWidth (splitSpaces text) [] ?_ (by simp) l hl
    exact splitSpacesAux_no_space text [] (by simp)

/-- Witness for the amended C6: the text `"ab c"` has no empty words and
round-trips through `wrapText`. -/
theorem C6_wrap_roundtrip_amended_witness :
    (∀ w ∈ splitSpaces (['a', 'b', ' ', 'c']), w ≠ []) ∧
    joinSpaces (wrapText lengthMeasure 10 (['a', 'b', ' ', 'c']))
      = (['a', 'b', ' ', 'c']) :=
  ⟨by decide,
    (C6_wrap_roundtrip_amended lengthMeasure 10 (['a', 'b', ' ', 'c'])).1 (by decide)⟩

/-- **C10.** For every input text and every measurement function, every line
returned by `wrapText` is non-empty (empty words arising from consecutive
spaces never produce an empty output line), and the empty input yields the
empty list of lines. -/
theorem C10_wrap_lines_nonempty (measure : List Char → ℚ) (maxWidth : ℚ) :
    (∀ text : List Char, ∀ l ∈ wrapText measure maxWidth text, l ≠ []) ∧
    wrapText measure maxWidth [] = [] := by
  constructor
  · intro text l hl
    rw [wrapText] at hl
    exact wrapWords_lines_ne_nil measure maxWidth (splitSpaces text) [] l hl
  · show wrapWords measure maxWidth (splitSpaces []) [] = []
    have h : splitSpaces ([] : List Char) = [[]] := rfl
    rw [h]
    simp [wrapWords, sepFor]

/-- Witness for C10: the single wrapped line of the text `"a"` is non-empty. -/
theorem C10_wrap_lines_nonempty_witness :
    (['a'] ∈ wrapText lengthMeasure 10 (['a'])) ∧ (['a'] : List Char) ≠ [] := by
  have hmem : ['a'] ∈ wrapText lengthMeasure 10 (['a']) := by decide
  exact ⟨hmem, (C10_wrap_lines_nonempty lengthMeasure 10).1 (['a']) ['a'] hmem⟩

lemma rvfs_error (isSupported : String → Bool)
    (encoder : List FrameRecord → List Chunk) (stopThrows : Bool)
    (fps : ℕ) (sections : List Section) (signal : ℕ → Bool) {e : JsError}
    (he : (renderToCanvasRun fps sections signal).2 = some e) :
    renderVideoFromSections isSupported encoder stopThrows fps sections signal
      = (encoder (renderToCanvasRun fps sections signal).1,
         [TeardownAction.recorderStop stopThrows, TeardownAction.trackStop],
         Except.error e) := by
  simp only [renderVideoFromSections]
  rw [he]

lemma rvfs_ok (isSupported : String → Bool)
    (encoder : List FrameRecord → List Chunk) (stopThrows : Bool)
    (fps : ℕ) (sections : List Section) (signal : ℕ → Bool)
    (h : (renderToCanvasRun fps sections signal).2 = none) :
    renderVideoFromSections isSupported encoder stopThrows fps sections signal
      = (encoder (renderToCanvasRun fps sections signal).1,
         [TeardownAction.recorderStop false, TeardownAction.trackStop],
         Except.ok { chunks := encoder (renderToCanvasRun fps sections signal).1,
                     mimeType := negotiateMime isSupported none }) := by
  simp only [renderVideoFromSections]
  rw [h]

/-- **C4.** If the cancellation token is already set before any frame is
produced, the sequencer throws the distinguishable `'AbortError'` at the
first frame boundary before painting anything, so an encoder driven by the
painted frames emits zero chunks; and on any mid-run sequencer failure or
cancellation, `renderVideoFromSections` attempts to stop the recorder
(swallowing a secondary stop exception), stops all stream tracks, and
rejects with the original error. -/
theorem C4_cancellation_and_teardown (isSupported : String → Bool)
    (encoder : List FrameRecord → List Chunk) (stopThrows : Bool)
    (fps : ℕ) (sections : List Section) (signal : ℕ → Bool)
    (hencoder : encoder [] = []) :
    (signal 0 = true → renderTrace fps sections ≠ [] →
      renderToCanvasRun fps sections signal = ([], some abortError) ∧
      abortError.name = "AbortError" ∧
      renderVideoFromSections isSupported encoder stopThrows fps sections signal
        = ([], [TeardownAction.recorderStop stopThrows, TeardownAction.trackStop],
            Except.error abortError)) ∧
    (∀ e : JsError, (renderToCanvasRun fps sections signal).2 = some e →
      (renderVideoFromSections isSupported encoder stopThrows fps sections signal).2.1
          = [TeardownAction.recorderStop stopThrows, TeardownAction.trackStop] ∧
      (renderVideoFromSections isSupported encoder stopThrows fps sections signal).2.2
          = Except.error e) := by
  constructor
  · intro hsig hne
    obtain ⟨f, rest, hfr⟩ := List.exists_cons_of_ne_nil hne
    have hrun : renderToCanvasRun fps sections signal = ([], some abortError) := by
      rw [renderToCanvasRun, hfr]
      simp [runFrames, hsig]
    refine ⟨hrun, rfl, ?_⟩
    rw [rvfs_error isSupported encoder stopThrows fps sections signal
      (by rw [hrun]), hrun]
    simp [hencoder]
  · intro e he
    rw [rvfs_error isSupported encoder stopThrows fps sections signal he]
    exact ⟨rfl, rfl⟩

/-- Witness for C4: a pre-set signal on a one-section schedule paints
nothing, emits nothing, tears down, and rejects with the abort error. -/
theorem C4_cancellation_and_teardown_witness :
    ((fun _ : List FrameRecord => ([] : List Chunk)) [] = []) ∧
    renderVideoFromSections (fun _ => true) (fun _ => []) true 1 [demoSection]
        (fun _ => true)
      = ([], [TeardownAction.recorderStop true, TeardownAction.trackStop],
          Except.error abortError) := by
  have hne : renderTrace 1 [demoSection] ≠ [] := by
    have h1 : sectionFrames 1 demoSection = 1 := by
      unfold sectionFrames
      apply ceil_toNat_eval <;> norm_num [demoSection]
    simp [renderTrace, renderTraceAux, sectionTrace, h1]
  exact ⟨rfl,
    ((C4_cancellation_and_teardown (fun _ => true) (fun _ => []) true 1
      [demoSection] (fun _ => true) rfl).1 rfl hne).2.2⟩

/-- **C5 (divergence).** At the failing input — one 1-second section at
fps 2, i.e. k = 2 painted frames — the streaming run builds the per-section
paint cache 2 times (once per frame), not 1 time: `renderToCanvas` calls
`paintFrame` for every frame and `paintFrame` invokes
`createSectionPaintCache` on every call, contradicting the intended
one-build-per-section design that `createSectionPaintCache` /
`paintFrameWithCache` exist for. -/
theorem C5_cache_rebuilt_every_frame :
    sectionFrames 2 demoSection = 2 ∧
    cacheBuildCount 2 [demoSection] demoSection.id = 2 ∧
    cacheBuildCount 2 [demoSection] demoSection.id ≠ 1 := by
  have hsf : sectionFrames 2 demoSection = 2 := by
    unfold sectionFrames
    apply ceil_toNat_eval <;> norm_num [demoSection]
  have hc : cacheBuildCount 2 [demoSection] demoSection.id = 2 := by
    simp only [cacheBuildCount, renderEvents, renderTrace, renderTraceAux,
      sectionTrace, hsf]
    simp [paintFrameEvents, List.range_succ, List.countP_cons]
  exact ⟨hsf, hc, by rw [hc]; norm_num⟩

/-- **C7.** The encoder mime type is the first supported option of the
ordered preference list (VP9, then VP8, then generic WebM), and every
successfully produced artifact blob is tagged with exactly that negotiated
mime type. -/
theorem C7_mime_negotiation (isSupported : String → Bool) :
    (∀ m : String, mimeCandidates.find? isSupported = some m →
      negotiateMime isSupported none = m) ∧
    (∀ (encoder : List FrameRecord → List Chunk) (stopThrows : Bool) (fps : ℕ)
      (sections : List Section) (signal : ℕ → Bool) (a : Artifact),
      (renderVideoFromSections isSupported encoder stopThrows fps sections
          signal).2.2 = Except.ok a →
      a.mimeType = negotiateMime isSupported none) := by
  constructor
  · intro m hm
    simp only [mimeCandidates] at hm
    cases h9 : isSupported vp9Mime <;> cases h8 : isSupported vp8Mime <;>
      cases hw : isSupported webmMime <;>
        simp_all [List.find?, negotiateMime]
  · intro encoder stopThrows fps sections signal a ha
    cases h : (renderToCanvasRun fps sections signal).2 with
    | none =>
        rw [rvfs_ok isSupported encoder stopThrows fps sections signal h] at ha
        simp only [Except.ok.injEq] at ha
        subst ha
        rfl
    | some e =>
        rw [rvfs_error isSupported encoder stopThrows fps sections signal h] at ha
        simp at ha

/-- Witness for C7: with only VP8 supported, the negotiation picks VP8 —
the first supported entry of the preference list. -/
theorem C7_mime_negotiation_witness :
    mimeCandidates.find? (fun s => decide (s = vp8Mime)) = some vp8Mime ∧
    negotiateMime (fun s => decide (s = vp8Mime)) none = vp8Mime :=
  ⟨by decide,
    (C7_mime_negotiation (fun s => decide (s = vp8Mime))).1 vp8Mime (by decide)⟩
